import Mathlib

/-!
Shallow embedding of the IKNP OT extension core (`src/mpc/ot/iknp_ote.hpp`).

Modeling conventions:
- A 128-bit `block` is a natural number; XOR on blocks is `Nat.xor`.
- Bit vectors (both the sparse one-byte-per-bit form and the dense packed
  form, which the source converts between with `Block::FromSparseBits`,
  `Block::FromDenseBits` and `Block::ToDenseBits`) are `List Bool`; a bit
  matrix in the source's column-major packed layout is a `List (List Bool)`
  of columns, so `empBitMatrixTranspose` followed by reading row `i` is
  reading entry `i` of every column (`rowOf`).  Those bit primitives are
  outside the given sources; they are modelled from the spec (section 4.1
  and 9: the conversions and the transpose form a consistent, bit-exact
  algebra), which makes the chunking into 128-bit blocks transparent.
- The PRG, the correlation-robust hash and the Naor-Pinkas base OT are
  external collaborators (spec section 1 and 6); they are modelled as shared
  ideal oracles exactly as the claims direct: `Oracles.prg k n` is the
  deterministic `n`-bit pad stream obtained by `PRG::ReSeed` from key `k`
  followed by `PRG::GenRandomBlocks` (`n = ROW_NUM` bits, i.e. `ROW_NUM/128`
  blocks), and `Oracles.hash` is `Hash::BlocksToBlock` applied to the single
  128-bit row block (`BASE_LEN/128 = 1`).
- Network I/O is modelled by an explicit transcript of `WireMsg` events;
  each party function returns its chronological I/O event list together
  with its protocol output, and `exit(EXIT_FAILURE)` paths return `none`
  with an empty event list.
- Randomness (the sender's base selection bits `s`, the receiver's matrix
  `T` and key vectors `K0`, `K1`) is universally quantified.
-/

namespace IKNPOTE

/-- A 128-bit block (source type `block`), modelled as a natural number;
block XOR is `Nat.xor`. -/
abbrev Block := Nat

/-- Default length of the base OT (source line 16: `BASE_LEN = 128`). -/
def BASE_LEN : Nat := 128

/-- Modelled from the spec: the Naor-Pinkas base-OT public parameters
(`NPOT::PP`) are an opaque collaborator value whose definition is outside the
given sources; we model them as an opaque byte list. -/
structure NPOT_PP where
  bytes : List Nat
deriving DecidableEq

/-- Public parameters (source lines 32-36): a `malicious` flag byte
(a C++ `uint8_t`, hence `< 256`) and the base-OT public parameters. -/
structure PP where
  malicious : Nat
  baseOT : NPOT_PP
deriving DecidableEq

/-- The external PRG and correlation-robust hash, modelled as shared ideal
oracles (deterministic functions both parties agree on).
`prg k n` is the `n`-bit pad obtained by reseeding from key `k` and drawing
`n/128` blocks; `hash` is the 128-bit row hash `Hash::BlocksToBlock`. -/
structure Oracles where
  prg : Block → Nat → List Bool
  hash : List Bool → Block

/-- One observable event on the wire: the opaque base-OT sub-transcript
(recording which base-OT public parameters were used), one column pair
`(inner C0, inner C1)` from receiver to sender, one block vector from sender
to receiver, or one single block from sender to receiver. -/
inductive WireMsg where
  | baseOT (bpp : NPOT_PP)
  | colPair (C0 C1 : List Bool)
  | blockVec (v : List Block)
  | oneBlock (b : Block)
deriving DecidableEq

/-- Source lines 24-30: the entry check.  Returns `true` when the source
function returns normally and `false` when it prints the error message and
calls `exit(EXIT_FAILURE)`. -/
def CheckParameters (ROW_NUM COLUMN_NUM : Nat) : Bool :=
  if ROW_NUM % 128 ≠ 0 ∨ COLUMN_NUM % 128 ≠ 0 then false else true

/-- Source lines 62-68: `Setup` sets `malicious = 0` and obtains the base-OT
public parameters from `NPOT::Setup()`, which is an external collaborator;
its (randomized) outcome is the parameter `npotSetup`. -/
def Setup (npotSetup : NPOT_PP) : PP :=
  ⟨0, npotSetup⟩

/-- Modelled from the spec: the serializer/deserializer pair for the opaque
base-OT public parameters (`Serialization::operator<<` / `>>` on `NPOT::PP`,
outside the given sources).  `deser` consumes a prefix of the byte stream and
returns the value together with the remaining bytes. -/
structure BaseSerde where
  ser : NPOT_PP → List Nat
  deser : List Nat → Option (NPOT_PP × List Nat)

/-- Source lines 46-51 and 71-82: `operator<<` writes the base-OT PP and then
the single byte `malicious`; `SavePP` writes exactly that stream to the file.
The file contents are modelled as the written byte list. -/
def SavePP (sd : BaseSerde) (pp : PP) : List Nat :=
  sd.ser pp.baseOT ++ [pp.malicious]

/-- Source lines 54-60 and 85-97: `operator>>` reads the base-OT PP and then
one byte into `malicious`; `FetchPP` reads that stream from the file
(modelled as a byte list; a too-short stream is a read failure). -/
def FetchPP (sd : BaseSerde) (bytes : List Nat) : Option PP :=
  match sd.deser bytes with
  | some (b, m :: _) => some ⟨m, b⟩
  | _ => none

/-- Bitwise XOR of two bit vectors (`Block::XOR` on block vectors, viewed at
the bit level). -/
def xorBits (a b : List Bool) : List Bool :=
  List.zipWith Bool.xor a b

/-- Row `i` of a column-major bit matrix: entry `i` of every column.  This is
what the source reads from the transposed matrix (`empBitMatrixTranspose`
followed by `Block::FromDenseBits` on row `i`), with the bit-exact transpose
modelled from the spec (section 4.1). -/
def rowOf (M : List (List Bool)) (i : Nat) : List Bool :=
  M.map fun col => col.getD i false

/-- The keys the extension sender obtains from the ideal base OT
(`NPOT::Receive` at source line 123/342 run against `NPOT::Send` at line
227/444): `K[j] = s_j ? K1[j] : K0[j]`. -/
def idealKeys (s : List Bool) (K0 K1 : List Block) : List Block :=
  (List.range BASE_LEN).map fun j =>
    if s.getD j false then K1.getD j 0 else K0.getD j 0

/-- The pair `(inner C0, inner C1)` the receiver sends for column `j`
(source lines 246-264): column `j` of `T`, and the same column XOR the dense
selection block (which at the bit level is the selection vector `r` itself),
each encrypted with the pad reseeded from `K0[j]` resp. `K1[j]`. -/
def receiverCols (o : Oracles) (ROW_NUM : Nat) (T : List (List Bool))
    (r : List Bool) (K0 K1 : List Block) (j : Nat) : List Bool × List Bool :=
  let vm0 := T.getD j []
  let vm1 := xorBits vm0 r
  (xorBits vm0 (o.prg (K0.getD j 0) ROW_NUM),
   xorBits vm1 (o.prg (K1.getD j 0) ROW_NUM))

/-- Column `j` of the matrix `Q` the sender reconstructs (source lines
141-157): decrypt the selected inner ciphertext with the pad derived from
the base-OT key for column `j`. -/
def senderColumn (o : Oracles) (ROW_NUM : Nat) (s : List Bool)
    (vec_K : List Block) (cols : Nat → List Bool × List Bool) (j : Nat) :
    List Bool :=
  let pad := o.prg (vec_K.getD j 0) ROW_NUM
  if s.getD j false then xorBits (cols j).2 pad else xorBits (cols j).1 pad

/-- The matrix `Q` the sender reconstructs, as its 128 columns. -/
def senderMatrixQ (o : Oracles) (ROW_NUM : Nat) (s : List Bool)
    (vec_K : List Block) (cols : Nat → List Bool × List Bool) :
    List (List Bool) :=
  (List.range BASE_LEN).map (senderColumn o ROW_NUM s vec_K cols)

/-- Source lines 99-202, `IKNPOTE::Send`.  Inputs beyond the source's
parameter list are the sender's random base selection bits `s`
(`GenRandomBits` at line 120), the keys `vec_K` the base OT returns (line
123), and the column pairs received from the wire (lines 143-144).  Returns
the sender's chronological I/O event list and, on the normal path, the two
outer ciphertext vectors it sends (lines 190-191); on the
`exit(EXIT_FAILURE)` path of `CheckParameters` (line 114, before any I/O)
it returns `([], none)`. -/
def Send (o : Oracles) (pp : PP) (vec_m0 vec_m1 : List Block)
    (EXTEND_LEN : Nat) (s : List Bool) (vec_K : List Block)
    (cols : Nat → List Bool × List Bool) :
    List WireMsg × Option (List Block × List Block) :=
  if CheckParameters EXTEND_LEN BASE_LEN then
    let Q := senderMatrixQ o EXTEND_LEN s vec_K cols
    let vec_outer_C0 := (List.range EXTEND_LEN).map fun i =>
      vec_m0.getD i 0 ^^^ o.hash (rowOf Q i)
    let vec_outer_C1 := (List.range EXTEND_LEN).map fun i =>
      vec_m1.getD i 0 ^^^ o.hash (xorBits (rowOf Q i) s)
    (WireMsg.baseOT pp.baseOT ::
      ((List.range BASE_LEN).map fun j =>
        WireMsg.colPair (cols j).1 (cols j).2) ++
      [WireMsg.blockVec vec_outer_C0, WireMsg.blockVec vec_outer_C1],
     some (vec_outer_C0, vec_outer_C1))
  else ([], none)

/-- Source lines 204-315, `IKNPOTE::Receive`.  Inputs beyond the source's
parameter list are the receiver's random matrix `T` (line 219, as 128
columns of `EXTEND_LEN` bits), its random key vectors `K0`, `K1` (lines
221-222), and the two outer ciphertext vectors received from the wire
(lines 279-280).  Returns the receiver's chronological I/O event list and,
on the normal path, `vec_result`; on the `exit(EXIT_FAILURE)` path of
`CheckParameters` (line 215, before any I/O) it returns `([], none)`. -/
def Receive (o : Oracles) (pp : PP) (vec_selection_bit : List Bool)
    (EXTEND_LEN : Nat) (T : List (List Bool)) (K0 K1 : List Block)
    (vec_outer_C0 vec_outer_C1 : List Block) :
    List WireMsg × Option (List Block) :=
  if CheckParameters EXTEND_LEN BASE_LEN then
    let vec_result := (List.range EXTEND_LEN).map fun i =>
      if vec_selection_bit.getD i false then
        vec_outer_C1.getD i 0 ^^^ o.hash (rowOf T i)
      else
        vec_outer_C0.getD i 0 ^^^ o.hash (rowOf T i)
    (WireMsg.baseOT pp.baseOT ::
      ((List.range BASE_LEN).map fun j =>
        WireMsg.colPair
          (receiverCols o EXTEND_LEN T vec_selection_bit K0 K1 j).1
          (receiverCols o EXTEND_LEN T vec_selection_bit K0 K1 j).2) ++
      [WireMsg.blockVec vec_outer_C0, WireMsg.blockVec vec_outer_C1],
     some vec_result)
  else ([], none)

/-- Source lines 317-419, `IKNPOTE::OnesidedSend`.  Same phase structure as
`Send`, but the final message is one ciphertext block per row
`outer_C = m[i] ^ H(Qrow_i ^ S)`, sent row by row (lines 397-403). -/
def OnesidedSend (o : Oracles) (pp : PP) (vec_m : List Block)
    (EXTEND_LEN : Nat) (s : List Bool) (vec_K : List Block)
    (cols : Nat → List Bool × List Bool) :
    List WireMsg × Option (List Block) :=
  if CheckParameters EXTEND_LEN BASE_LEN then
    let Q := senderMatrixQ o EXTEND_LEN s vec_K cols
    let vec_outer_C := (List.range EXTEND_LEN).map fun i =>
      vec_m.getD i 0 ^^^ o.hash (xorBits (rowOf Q i) s)
    (WireMsg.baseOT pp.baseOT ::
      ((List.range BASE_LEN).map fun j =>
        WireMsg.colPair (cols j).1 (cols j).2) ++
      vec_outer_C.map WireMsg.oneBlock,
     some vec_outer_C)
  else ([], none)

/-- Source lines 422-521, `IKNPOTE::OnesidedReceive`.  Same phase structure
as `Receive`, but the final phase receives one block per row (line 496) and
appends the decryption only when the selection bit is 1 (lines 501-503). -/
def OnesidedReceive (o : Oracles) (pp : PP) (vec_selection_bit : List Bool)
    (EXTEND_LEN : Nat) (T : List (List Bool)) (K0 K1 : List Block)
    (vec_outer_C : List Block) :
    List WireMsg × Option (List Block) :=
  if CheckParameters EXTEND_LEN BASE_LEN then
    let vec_result := (List.range EXTEND_LEN).filterMap fun i =>
      if vec_selection_bit.getD i false then
        some (vec_outer_C.getD i 0 ^^^ o.hash (rowOf T i))
      else none
    (WireMsg.baseOT pp.baseOT ::
      ((List.range BASE_LEN).map fun j =>
        WireMsg.colPair
          (receiverCols o EXTEND_LEN T vec_selection_bit K0 K1 j).1
          (receiverCols o EXTEND_LEN T vec_selection_bit K0 K1 j).2) ++
      (List.range EXTEND_LEN).map fun i =>
        WireMsg.oneBlock (vec_outer_C.getD i 0),
     some vec_result)
  else ([], none)

/-- One honest run of `Send` paired with `Receive`: the receiver's column
pairs feed the sender, the ideal base OT gives the sender the keys selected
by `s` from `(K0, K1)`, and the sender's outer ciphertext vectors feed the
receiver.  Returns the receiver's `vec_result`. -/
def honestRun (o : Oracles) (pp : PP) (vec_m0 vec_m1 : List Block)
    (r : List Bool) (N : Nat) (s : List Bool) (T : List (List Bool))
    (K0 K1 : List Block) : Option (List Block) :=
  match (Send o pp vec_m0 vec_m1 N s (idealKeys s K0 K1)
      (receiverCols o N T r K0 K1)).2 with
  | some (c0, c1) => (Receive o pp r N T K0 K1 c0 c1).2
  | none => none

/-- One honest run of `OnesidedSend` paired with `OnesidedReceive`. -/
def onesidedHonestRun (o : Oracles) (pp : PP) (vec_m : List Block)
    (r : List Bool) (N : Nat) (s : List Bool) (T : List (List Bool))
    (K0 K1 : List Block) : Option (List Block) :=
  match (OnesidedSend o pp vec_m N s (idealKeys s K0 K1)
      (receiverCols o N T r K0 K1)).2 with
  | some c => (OnesidedReceive o pp r N T K0 K1 c).2
  | none => none

/-- Hamming weight of a bit vector. -/
def hammingWeight (r : List Bool) : Nat :=
  r.count true

/-- A concrete instantiation of the ideal oracles, used by witnesses: the
all-zero pad stream and the constant-zero hash. -/
def oracles0 : Oracles :=
  ⟨fun _ n => List.replicate n false, fun _ => 0⟩

/-- Concrete public parameters used by witnesses. -/
def pp0 : PP :=
  ⟨0, ⟨[]⟩⟩

/-- A concrete base-OT serializer/deserializer pair used by witnesses: a
length-prefixed byte encoding. -/
def lenPrefixSerde : BaseSerde :=
  ⟨fun b => b.bytes.length :: b.bytes,
   fun l =>
     match l with
     | [] => none
     | n :: t => if n ≤ t.length then some (⟨t.take n⟩, t.drop n) else none⟩

/-- XOR on blocks cancels: `a ^^^ b ^^^ b = a`. -/
theorem natXorCancel (a b : Nat) : a ^^^ b ^^^ b = a := by
  rw [Nat.xor_assoc, Nat.xor_self, Nat.xor_zero]

/-- Reading index `j < n` of a map over `List.range n`. -/
theorem getD_range_map {α : Type _} (f : Nat → α) (d : α) {n j : Nat}
    (h : j < n) : ((List.range n).map f).getD j d = f j := by
  rw [List.getD_eq_getElem?_getD, List.getElem?_map, List.getElem?_range h]
  rfl

/-- Reading a valid index of a mapped list, with any defaults. -/
theorem getD_map_lt {α β : Type _} (f : α → β) (l : List α) (d : β) (e : α)
    {j : Nat} (h : j < l.length) : (l.map f).getD j d = f (l.getD j e) := by
  rw [List.getD_eq_getElem?_getD, List.getElem?_map,
    List.getD_eq_getElem?_getD, List.getElem?_eq_getElem h]
  rfl

/-- Reading a valid index of a `zipWith`, with any defaults. -/
theorem getD_zipWith_lt {α β γ : Type _} (f : α → β → γ) (d₁ : α) (d₂ : β)
    (d₃ : γ) : ∀ (a : List α) (b : List β) (i : Nat), i < a.length →
    i < b.length →
    (List.zipWith f a b).getD i d₃ = f (a.getD i d₁) (b.getD i d₂) := by
  intro a
  induction a with
  | nil => intro b i ha _; exact absurd ha (by simp)
  | cons x a ih =>
    intro b i ha hb
    cases b with
    | nil => exact absurd hb (by simp)
    | cons y b =>
      cases i with
      | zero => rfl
      | succ i =>
        simp only [List.zipWith_cons_cons, List.getD_cons_succ]
        exact ih b i (by simpa using ha) (by simpa using hb)

/-- Reading a valid index of `List.replicate`. -/
theorem getD_replicate {α : Type _} (a d : α) :
    ∀ (n i : Nat), i < n → (List.replicate n a).getD i d = a := by
  intro n
  induction n with
  | zero => intro i h; exact absurd h (Nat.not_lt_zero i)
  | succ n ih =>
    intro i h
    cases i with
    | zero => rfl
    | succ i =>
      simpa [List.replicate_succ, List.getD_cons_succ] using
        ih i (Nat.lt_of_succ_lt_succ h)

/-- XOR of bit vectors is an involution on the left argument. -/
theorem xorBits_xorBits_cancel :
    ∀ (a b : List Bool), a.length ≤ b.length →
      xorBits (xorBits a b) b = a := by
  intro a
  induction a with
  | nil => intro b _; cases b <;> rfl
  | cons x a ih =>
    intro b h
    cases b with
    | nil => exact absurd h (by simp)
    | cons y b =>
      simp only [xorBits, List.zipWith_cons_cons]
      rw [show Bool.xor (Bool.xor x y) y = x by cases x <;> cases y <;> rfl]
      have := ih b (by simpa using h)
      simp only [xorBits] at this
      rw [this]

/-- A mapped list as a map over the range of its indices. -/
theorem map_eq_range_map {α β : Type _} (g : α → β) (d : α) :
    ∀ l : List α,
      l.map g = (List.range l.length).map fun j => g (l.getD j d) := by
  intro l
  induction l with
  | nil => rfl
  | cons x t ih =>
    simp only [List.length_cons, List.range_succ_eq_map, List.map_cons,
      List.map_map]
    refine congrArg₂ _ rfl ?_
    rw [ih]
    apply List.map_congr_left
    intro a _
    simp [Function.comp, List.getD_cons_succ]

/-- A `zipWith` of two lists of length `n` as a map over `List.range n`. -/
theorem zipWith_eq_range_map {α β γ : Type _} (f : α → β → γ) (d : α)
    (e : β) : ∀ (n : Nat) (a : List α) (b : List β), a.length = n →
    b.length = n →
    List.zipWith f a b =
      (List.range n).map fun j => f (a.getD j d) (b.getD j e) := by
  intro n
  induction n with
  | zero =>
    intro a b ha hb
    rw [List.length_eq_zero] at ha hb
    subst ha; subst hb; rfl
  | succ n ih =>
    intro a b ha hb
    cases a with
    | nil => simp at ha
    | cons x a' =>
      cases b with
      | nil => simp at hb
      | cons y b' =>
        simp only [List.zipWith_cons_cons, List.range_succ_eq_map,
          List.map_cons, List.map_map]
        refine congrArg₂ _ rfl ?_
        rw [ih a' b' (by simpa using ha) (by simpa using hb)]
        apply List.map_congr_left
        intro j _
        simp [Function.comp, List.getD_cons_succ]

/-- A `filterMap` with an if-then-some-else-none body is a filter then map. -/
theorem filterMap_ite {α β : Type _} (p : α → Bool) (g : α → β) :
    ∀ l : List α,
      (l.filterMap fun a => if p a then some (g a) else none) =
        (l.filter p).map g := by
  intro l
  induction l with
  | nil => rfl
  | cons x t ih =>
    by_cases h : p x
    · simp [List.filterMap_cons, List.filter_cons, h, ih]
    · simp [List.filterMap_cons, List.filter_cons, h, ih]

/-- Counting the indices at which a bit vector reads `true` gives its
Hamming weight. -/
theorem length_filter_range_getD :
    ∀ r : List Bool,
      ((List.range r.length).filter fun i => r.getD i false).length =
        hammingWeight r := by
  intro r
  induction r with
  | nil => rfl
  | cons b t ih =>
    simp only [List.length_cons, List.range_succ_eq_map, List.filter_cons,
      List.getD_cons_zero]
    rw [show List.filter (fun i => (b :: t).getD i false)
          ((List.range t.length).map Nat.succ) =
        (List.filter (fun i => t.getD i false) (List.range t.length)).map
          Nat.succ by
      rw [List.filter_map]
      rfl]
    cases b
    · simpa [hammingWeight, List.count_cons] using ih
    · simpa [hammingWeight, List.count_cons] using ih

/-- The entry check returns normally exactly when both dimensions are
multiples of 128. -/
theorem checkParameters_true_iff (ROW_NUM COLUMN_NUM : Nat) :
    CheckParameters ROW_NUM COLUMN_NUM = true ↔
      (ROW_NUM % 128 = 0 ∧ COLUMN_NUM % 128 = 0) := by
  by_cases h : ROW_NUM % 128 ≠ 0 ∨ COLUMN_NUM % 128 ≠ 0
  · simp only [CheckParameters, if_pos h]
    constructor
    · intro hfalse; exact absurd hfalse (by simp)
    · intro ⟨h1, h2⟩; exact absurd h (by simp [h1, h2])
  · push_neg at h
    simp [CheckParameters, h.1, h.2]

/-- C4 (counterexample): the claim says `CheckParameters` aborts for every
`COLUMN_NUM` different from 128, but `CheckParameters 128 256` returns
normally although `256 ≠ 128`: the source only tests divisibility by 128. -/
theorem checkparameters_accepts_column_256 :
    CheckParameters 128 256 = true ∧ (256 : Nat) ≠ 128 := by decide

/-- C4 (amended): `CheckParameters` aborts exactly when `ROW_NUM` or
`COLUMN_NUM` is not a multiple of 128; it performs no separate
`COLUMN_NUM = 128` test (every call site passes `COLUMN_NUM = BASE_LEN`). -/
theorem checkparameters_rejects_iff (ROW_NUM COLUMN_NUM : Nat) :
    CheckParameters ROW_NUM COLUMN_NUM = false ↔
      (ROW_NUM % 128 ≠ 0 ∨ COLUMN_NUM % 128 ≠ 0) := by
  rw [Bool.eq_false_iff, Ne, checkParameters_true_iff]
  tauto

/-- C5: for every `EXTEND_LEN` that is not a multiple of 128, each of the
four entry points aborts at entry: its I/O event list is empty (no base OT,
no block sent or received) and it produces no output. -/
theorem entry_abort_before_io (EXTEND_LEN : Nat)
    (hN : EXTEND_LEN % 128 ≠ 0) (o : Oracles) (pp : PP)
    (vec_m0 vec_m1 vec_m : List Block) (s : List Bool) (vec_K : List Block)
    (cols : Nat → List Bool × List Bool) (r : List Bool)
    (T : List (List Bool)) (K0 K1 : List Block) (c0 c1 c : List Block) :
    Send o pp vec_m0 vec_m1 EXTEND_LEN s vec_K cols = ([], none) ∧
    Receive o pp r EXTEND_LEN T K0 K1 c0 c1 = ([], none) ∧
    OnesidedSend o pp vec_m EXTEND_LEN s vec_K cols = ([], none) ∧
    OnesidedReceive o pp r EXTEND_LEN T K0 K1 c = ([], none) := by
  have hc : CheckParameters EXTEND_LEN BASE_LEN = false := by
    simp [CheckParameters, hN]
  refine ⟨?_, ?_, ?_, ?_⟩ <;>
    simp [Send, Receive, OnesidedSend, OnesidedReceive, hc]

/-- Witness for C5 at `EXTEND_LEN = 1`. -/
theorem entry_abort_before_io_witness :
    (1 : Nat) % 128 ≠ 0 ∧
    (Send oracles0 pp0 [] [] 1 [] [] (fun _ => ([], [])) = ([], none) ∧
     Receive oracles0 pp0 [] 1 [] [] [] [] [] = ([], none) ∧
     OnesidedSend oracles0 pp0 [] 1 [] [] (fun _ => ([], [])) = ([], none) ∧
     OnesidedReceive oracles0 pp0 [] 1 [] [] [] [] = ([], none)) :=
  ⟨by decide, entry_abort_before_io 1 (by decide) oracles0 pp0 [] [] [] []
    [] (fun _ => ([], [])) [] [] [] [] [] [] []⟩

/-- C8: the core never branches on the `malicious` flag: two public
parameter values that agree on the base-OT parameters and differ only in
`malicious` give identical I/O event lists and identical outputs for all
four entry points, for identical other inputs and identical collaborator
behavior. -/
theorem malicious_flag_unused (o : Oracles) (pp1 pp2 : PP)
    (h : pp1.baseOT = pp2.baseOT) (vec_m0 vec_m1 vec_m : List Block)
    (EXTEND_LEN : Nat) (s : List Bool) (vec_K : List Block)
    (cols : Nat → List Bool × List Bool) (r : List Bool)
    (T : List (List Bool)) (K0 K1 : List Block) (c0 c1 c : List Block) :
    Send o pp1 vec_m0 vec_m1 EXTEND_LEN s vec_K cols =
      Send o pp2 vec_m0 vec_m1 EXTEND_LEN s vec_K cols ∧
    Receive o pp1 r EXTEND_LEN T K0 K1 c0 c1 =
      Receive o pp2 r EXTEND_LEN T K0 K1 c0 c1 ∧
    OnesidedSend o pp1 vec_m EXTEND_LEN s vec_K cols =
      OnesidedSend o pp2 vec_m EXTEND_LEN s vec_K cols ∧
    OnesidedReceive o pp1 r EXTEND_LEN T K0 K1 c =
      OnesidedReceive o pp2 r EXTEND_LEN T K0 K1 c := by
  refine ⟨?_, ?_, ?_, ?_⟩ <;>
    simp only [Send, Receive, OnesidedSend, OnesidedReceive, h]

/-- Witness for C8: `pp = ⟨0, ⟨[]⟩⟩` against `pp = ⟨1, ⟨[]⟩⟩`. -/
theorem malicious_flag_unused_witness :
    Send oracles0 ⟨0, ⟨[]⟩⟩ [] [] 0 [] [] (fun _ => ([], [])) =
      Send oracles0 ⟨1, ⟨[]⟩⟩ [] [] 0 [] [] (fun _ => ([], [])) ∧
    Receive oracles0 ⟨0, ⟨[]⟩⟩ [] 0 [] [] [] [] [] =
      Receive oracles0 ⟨1, ⟨[]⟩⟩ [] 0 [] [] [] [] [] ∧
    OnesidedSend oracles0 ⟨0, ⟨[]⟩⟩ [] 0 [] [] (fun _ => ([], [])) =
      OnesidedSend oracles0 ⟨1, ⟨[]⟩⟩ [] 0 [] [] (fun _ => ([], [])) ∧
    OnesidedReceive oracles0 ⟨0, ⟨[]⟩⟩ [] 0 [] [] [] [] =
      OnesidedReceive oracles0 ⟨1, ⟨[]⟩⟩ [] 0 [] [] [] [] :=
  malicious_flag_unused oracles0 ⟨0, ⟨[]⟩⟩ ⟨1, ⟨[]⟩⟩ rfl [] [] [] 0 [] []
    (fun _ => ([], [])) [] [] [] [] [] [] []

/-- C6: writing public parameters with `SavePP` and reading them back with
`FetchPP` is the identity, given any base-OT serializer/deserializer pair
that is an exact inverse; and the written stream is exactly the serialized
base-OT parameters followed by the single `malicious` byte. -/
theorem pp_roundtrip (sd : BaseSerde)
    (hsd : ∀ b rest, sd.deser (sd.ser b ++ rest) = some (b, rest))
    (pp : PP) (_hm : pp.malicious < 256) :
    FetchPP sd (SavePP sd pp) = some pp ∧
    SavePP sd pp = sd.ser pp.baseOT ++ [pp.malicious] := by
  refine ⟨?_, rfl⟩
  unfold FetchPP SavePP
  rw [hsd]

/-- Witness for C6 with the length-prefixed base-OT encoding. -/
theorem pp_roundtrip_witness :
    FetchPP lenPrefixSerde (SavePP lenPrefixSerde ⟨1, ⟨[7, 8]⟩⟩) =
      some ⟨1, ⟨[7, 8]⟩⟩ ∧
    SavePP lenPrefixSerde ⟨1, ⟨[7, 8]⟩⟩ =
      lenPrefixSerde.ser ⟨[7, 8]⟩ ++ [1] :=
  pp_roundtrip lenPrefixSerde
    (fun b rest => by
      simp only [lenPrefixSerde, List.cons_append]
      rw [if_pos (by simp)]
      rw [List.take_left, List.drop_left])
    ⟨1, ⟨[7, 8]⟩⟩ (by decide)

/-- C9: `EXTEND_LEN = 0` is accepted: `CheckParameters 0 128` returns
normally, a call of `Receive` or `OnesidedReceive` with `EXTEND_LEN = 0`
(whose random matrix `T` then has 128 columns of zero bits) passes the
entry check, runs the base-OT phase and all 128 column rounds with
zero-length column vectors, and returns an empty result vector; `Send`
likewise proceeds and produces empty outer ciphertext vectors. -/
theorem zero_extend_len_accepted :
    CheckParameters 0 128 = true ∧
    (∀ o pp sel K0 K1 a b,
      Receive o pp sel 0 (List.replicate 128 []) K0 K1 a b =
        (WireMsg.baseOT pp.baseOT ::
          ((List.range 128).map fun _ => WireMsg.colPair [] []) ++
          [WireMsg.blockVec a, WireMsg.blockVec b], some [])) ∧
    (∀ o pp sel K0 K1 c,
      OnesidedReceive o pp sel 0 (List.replicate 128 []) K0 K1 c =
        (WireMsg.baseOT pp.baseOT ::
          ((List.range 128).map fun _ => WireMsg.colPair [] []), some [])) ∧
    (∀ o pp vec_m0 vec_m1 s vec_K cols,
      (Send o pp vec_m0 vec_m1 0 s vec_K cols).2 = some ([], [])) := by
  have hcols : ∀ (o : Oracles) (sel : List Bool) (K0 K1 : List Block),
      ((List.range 128).map fun j =>
        WireMsg.colPair
          (receiverCols o 0 (List.replicate 128 []) sel K0 K1 j).1
          (receiverCols o 0 (List.replicate 128 []) sel K0 K1 j).2) =
      (List.range 128).map fun _ => WireMsg.colPair [] [] := by
    intro o sel K0 K1
    apply List.map_congr_left
    intro j hmem
    have hj : j < 128 := List.mem_range.mp hmem
    have h0 : (List.replicate 128 ([] : List Bool)).getD j [] = [] :=
      getD_replicate _ _ _ _ hj
    simp only [receiverCols, h0, xorBits, List.zipWith_nil_left]
  refine ⟨by decide, ?_, ?_, ?_⟩
  · intro o pp sel K0 K1 a b
    simp only [Receive]
    rw [if_pos (by decide)]
    simp only [BASE_LEN]
    rw [hcols o sel K0 K1]
    rfl
  · intro o pp sel K0 K1 c
    simp only [OnesidedReceive]
    rw [if_pos (by decide)]
    simp only [BASE_LEN]
    rw [hcols o sel K0 K1]
    rfl
  · intro o pp vec_m0 vec_m1 s vec_K cols
    simp only [Send]
    rw [if_pos (by decide)]
    rfl

/-- C10: `Setup` always returns public parameters whose `malicious` field
is 0, for every outcome of the base-OT setup it invokes. -/
theorem setup_malicious_zero :
    ∀ npotSetup : NPOT_PP, (Setup npotSetup).malicious = 0 :=
  fun _ => rfl

/-- A `filterMap` only depends on the values of its function on the list. -/
theorem filterMap_congr_mem {α β : Type _} :
    ∀ (l : List α) (f g : α → Option β), (∀ a ∈ l, f a = g a) →
      l.filterMap f = l.filterMap g := by
  intro l
  induction l with
  | nil => intro f g _; rfl
  | cons x t ih =>
    intro f g h
    have hx := h x (List.mem_cons_self x t)
    have ht := ih f g fun a ha => h a (List.mem_cons_of_mem x ha)
    simp only [List.filterMap_cons, hx, ht]

/-- In the honest run, the column the sender reconstructs (decrypting the
selected inner ciphertext with the pad derived from the base-OT key) is
column `j` of `T`, XORed with the selection vector exactly when the
sender's base selection bit `s_j` is set. -/
theorem senderColumn_honest (o : Oracles) (N : Nat) (T : List (List Bool))
    (r s : List Bool) (K0 K1 : List Block) {j : Nat} (hj : j < 128)
    (hr : r.length = N) (hTcol : (T.getD j []).length = N)
    (hprg : ∀ k n, (o.prg k n).length = n) :
    senderColumn o N s (idealKeys s K0 K1) (receiverCols o N T r K0 K1) j =
      if s.getD j false then xorBits (T.getD j []) r else T.getD j [] := by
  have hK : (idealKeys s K0 K1).getD j 0 =
      if s.getD j false then K1.getD j 0 else K0.getD j 0 := by
    simp only [idealKeys]
    exact getD_range_map _ _ (show j < BASE_LEN from hj)
  cases hs : s.getD j false
  · simp only [senderColumn, receiverCols, hK, hs, Bool.false_eq_true,
      if_false]
    exact xorBits_xorBits_cancel _ _ (by rw [hTcol, hprg])
  · simp only [senderColumn, receiverCols, hK, hs, if_true]
    refine xorBits_xorBits_cancel _ _ ?_
    rw [hprg]
    simp [xorBits, List.length_zipWith, hTcol, hr]

/-- In the honest run, row `i` of the sender's reconstructed matrix `Q`
equals row `i` of the receiver's matrix `T`, XORed with the sender's base
selection block `s` exactly when the receiver's selection bit `r_i` is 1. -/
theorem qrow_honest (o : Oracles) (N : Nat) (T : List (List Bool))
    (r s : List Bool) (K0 K1 : List Block) {i : Nat} (hi : i < N)
    (hr : r.length = N) (hs : s.length = 128) (hT : T.length = 128)
    (hTcol : ∀ j, j < 128 → (T.getD j []).length = N)
    (hprg : ∀ k n, (o.prg k n).length = n) :
    rowOf (senderMatrixQ o N s (idealKeys s K0 K1)
        (receiverCols o N T r K0 K1)) i =
      if r.getD i false then xorBits (rowOf T i) s else rowOf T i := by
  have hL : rowOf (senderMatrixQ o N s (idealKeys s K0 K1)
      (receiverCols o N T r K0 K1)) i =
      (List.range 128).map fun j =>
        (senderColumn o N s (idealKeys s K0 K1)
          (receiverCols o N T r K0 K1) j).getD i false := by
    simp only [rowOf, senderMatrixQ, List.map_map, BASE_LEN]
    rfl
  rw [hL]
  cases hri : r.getD i false
  · simp only [Bool.false_eq_true, if_false]
    rw [show rowOf T i = (List.range 128).map fun j =>
        (T.getD j []).getD i false by
      simp only [rowOf]
      rw [map_eq_range_map (fun col => col.getD i false) [] T, hT]]
    apply List.map_congr_left
    intro j hmem
    have hj : j < 128 := List.mem_range.mp hmem
    rw [senderColumn_honest o N T r s K0 K1 hj hr (hTcol j hj) hprg]
    cases hsj : s.getD j false
    · simp only [Bool.false_eq_true, if_false]
    · simp only [if_true, xorBits]
      rw [getD_zipWith_lt Bool.xor false false false (T.getD j []) r i
        (by rw [hTcol j hj]; exact hi) (by rw [hr]; exact hi)]
      rw [hri, Bool.xor_false]
  · simp only [if_true]
    rw [show xorBits (rowOf T i) s = (List.range 128).map fun j =>
        Bool.xor ((rowOf T i).getD j false) (s.getD j false) by
      simp only [xorBits]
      rw [zipWith_eq_range_map Bool.xor false false 128 (rowOf T i) s
        (by simp [rowOf, hT]) hs]]
    apply List.map_congr_left
    intro j hmem
    have hj : j < 128 := List.mem_range.mp hmem
    rw [senderColumn_honest o N T r s K0 K1 hj hr (hTcol j hj) hprg]
    have hTji : (rowOf T i).getD j false = (T.getD j []).getD i false := by
      simp only [rowOf]
      exact getD_map_lt _ T false [] (by rw [hT]; exact hj)
    rw [hTji]
    cases hsj : s.getD j false
    · simp only [Bool.false_eq_true, if_false, Bool.xor_false]
    · simp only [if_true, Bool.xor_true, xorBits]
      rw [getD_zipWith_lt Bool.xor false false false (T.getD j []) r i
        (by rw [hTcol j hj]; exact hi) (by rw [hr]; exact hi)]
      rw [hri, Bool.xor_true]

/-- C1: for every `N` a positive multiple of 128, every pair of message
vectors of `N` blocks and every selection vector of `N` bits, an honest run
of `Send` paired with `Receive` (PRG, correlation-robust hash and base OT
as shared ideal oracles) makes `Receive` return a result of length `N` with
`result[i] = m0[i]` when `r_i = 0` and `result[i] = m1[i]` when
`r_i = 1`, for every `i < N`. -/
theorem iknp_send_receive_correct (o : Oracles) (pp : PP)
    (vec_m0 vec_m1 : List Block) (r : List Bool) (N : Nat) (s : List Bool)
    (T : List (List Bool)) (K0 K1 : List Block)
    (hN : N % 128 = 0) (_hNpos : 0 < N)
    (_hm0 : vec_m0.length = N) (_hm1 : vec_m1.length = N) (hr : r.length = N)
    (hs : s.length = 128) (hT : T.length = 128)
    (hTcol : ∀ j, j < 128 → (T.getD j []).length = N)
    (hprg : ∀ k n, (o.prg k n).length = n) :
    ∃ res, honestRun o pp vec_m0 vec_m1 r N s T K0 K1 = some res ∧
      res.length = N ∧
      ∀ i, i < N → res.getD i 0 =
        if r.getD i false then vec_m1.getD i 0 else vec_m0.getD i 0 := by
  have hcheck : CheckParameters N BASE_LEN = true :=
    (checkParameters_true_iff N BASE_LEN).mpr ⟨hN, by decide⟩
  refine ⟨(List.range N).map fun i =>
    if r.getD i false then vec_m1.getD i 0 else vec_m0.getD i 0,
    ?_, by simp, fun i hi => getD_range_map _ _ hi⟩
  simp only [honestRun, Send, Receive, hcheck, if_true]
  refine congrArg some ?_
  apply List.map_congr_left
  intro i hmem
  have hi : i < N := List.mem_range.mp hmem
  cases hri : r.getD i false
  · simp only [Bool.false_eq_true, if_false]
    rw [getD_range_map _ _ hi,
      qrow_honest o N T r s K0 K1 hi hr hs hT hTcol hprg, hri]
    simp only [Bool.false_eq_true, if_false]
    exact natXorCancel _ _
  · simp only [if_true]
    rw [getD_range_map _ _ hi,
      qrow_honest o N T r s K0 K1 hi hr hs hT hTcol hprg, hri]
    simp only [if_true]
    rw [xorBits_xorBits_cancel (rowOf T i) s (by simp [rowOf, hT, hs])]
    exact natXorCancel _ _

/-- Witness for C1 at `N = 128` with concrete oracles and inputs. -/
theorem iknp_send_receive_correct_witness :
    ∃ res, honestRun oracles0 pp0 (List.replicate 128 0)
        (List.replicate 128 1) (List.replicate 128 false) 128
        (List.replicate 128 false)
        (List.replicate 128 (List.replicate 128 false))
        (List.replicate 128 0) (List.replicate 128 0) = some res ∧
      res.length = 128 ∧
      ∀ i, i < 128 → res.getD i 0 =
        if (List.replicate 128 false).getD i false
        then (List.replicate 128 1).getD i 0
        else (List.replicate 128 0).getD i 0 :=
  iknp_send_receive_correct oracles0 pp0 (List.replicate 128 0)
    (List.replicate 128 1) (List.replicate 128 false) 128
    (List.replicate 128 false)
    (List.replicate 128 (List.replicate 128 false))
    (List.replicate 128 0) (List.replicate 128 0)
    (by decide) (by decide) (by simp) (by simp) (by simp) (by simp)
    (by simp) (fun j hj => by rw [getD_replicate _ _ _ _ hj]; simp)
    (fun k n => by simp [oracles0])

/-- C2: for every `N` a positive multiple of 128, every message vector of
`N` blocks and every selection vector of `N` bits, an honest run of
`OnesidedSend` paired with `OnesidedReceive` (ideal oracles) makes
`OnesidedReceive` return a vector whose length is the Hamming weight of
`r`, whose `k`-th element is `m[i_k]` where `i_0 < i_1 < ...` enumerate in
ascending order the indices with `r_i = 1`. -/
theorem iknp_onesided_correct (o : Oracles) (pp : PP) (vec_m : List Block)
    (r : List Bool) (N : Nat) (s : List Bool) (T : List (List Bool))
    (K0 K1 : List Block) (hN : N % 128 = 0) (_hNpos : 0 < N)
    (_hm : vec_m.length = N) (hr : r.length = N) (hs : s.length = 128)
    (hT : T.length = 128) (hTcol : ∀ j, j < 128 → (T.getD j []).length = N)
    (hprg : ∀ k n, (o.prg k n).length = n) :
    ∃ res, onesidedHonestRun o pp vec_m r N s T K0 K1 = some res ∧
      res.length = hammingWeight r ∧
      res = ((List.range N).filter fun i => r.getD i false).map fun i =>
        vec_m.getD i 0 := by
  have hcheck : CheckParameters N BASE_LEN = true :=
    (checkParameters_true_iff N BASE_LEN).mpr ⟨hN, by decide⟩
  refine ⟨((List.range N).filter fun i => r.getD i false).map fun i =>
    vec_m.getD i 0, ?_, ?_, rfl⟩
  · simp only [onesidedHonestRun, OnesidedSend, OnesidedReceive, hcheck,
      if_true]
    refine congrArg some ?_
    rw [← filterMap_ite (fun i => r.getD i false)
      (fun i => vec_m.getD i 0) (List.range N)]
    apply filterMap_congr_mem
    intro i hmem
    have hi : i < N := List.mem_range.mp hmem
    cases hri : r.getD i false
    · simp only [Bool.false_eq_true, if_false]
    · simp only [if_true]
      refine congrArg some ?_
      rw [getD_range_map _ _ hi,
        qrow_honest o N T r s K0 K1 hi hr hs hT hTcol hprg, hri]
      simp only [if_true]
      rw [xorBits_xorBits_cancel (rowOf T i) s (by simp [rowOf, hT, hs])]
      exact natXorCancel _ _
  · simp only [List.length_map]
    rw [← hr]
    exact length_filter_range_getD r

/-- Witness for C2 at `N = 128` with all selection bits set. -/
theorem iknp_onesided_correct_witness :
    ∃ res, onesidedHonestRun oracles0 pp0 (List.replicate 128 5)
        (List.replicate 128 true) 128 (List.replicate 128 false)
        (List.replicate 128 (List.replicate 128 false))
        (List.replicate 128 0) (List.replicate 128 0) = some res ∧
      res.length = hammingWeight (List.replicate 128 true) ∧
      res = ((List.range 128).filter fun i =>
          (List.replicate 128 true).getD i false).map fun i =>
        (List.replicate 128 5).getD i 0 :=
  iknp_onesided_correct oracles0 pp0 (List.replicate 128 5)
    (List.replicate 128 true) 128 (List.replicate 128 false)
    (List.replicate 128 (List.replicate 128 false))
    (List.replicate 128 0) (List.replicate 128 0)
    (by decide) (by decide) (by simp) (by simp) (by simp) (by simp)
    (fun j hj => by rw [getD_replicate _ _ _ _ hj]; simp)
    (fun k n => by simp [oracles0])

/-- C3: after the column phase of an honest run, for every row `i < N`,
row `i` of the sender's reconstructed matrix `Q` equals row `i` of the
receiver's matrix `T` XORed with the sender's base selection block `s`
exactly when the receiver's selection bit `r_i` is 1; consequently
`H(Qrow_i) = H(Trow_i)` when `r_i = 0` and `H(Qrow_i XOR s) = H(Trow_i)`
when `r_i = 1`. -/
theorem iknp_q_row_correlation (o : Oracles) (N : Nat)
    (T : List (List Bool)) (r s : List Bool) (K0 K1 : List Block)
    (hr : r.length = N) (hs : s.length = 128) (hT : T.length = 128)
    (hTcol : ∀ j, j < 128 → (T.getD j []).length = N)
    (hprg : ∀ k n, (o.prg k n).length = n) :
    ∀ i, i < N →
      rowOf (senderMatrixQ o N s (idealKeys s K0 K1)
          (receiverCols o N T r K0 K1)) i =
        (if r.getD i false then xorBits (rowOf T i) s else rowOf T i) ∧
      (r.getD i false = false →
        o.hash (rowOf (senderMatrixQ o N s (idealKeys s K0 K1)
          (receiverCols o N T r K0 K1)) i) = o.hash (rowOf T i)) ∧
      (r.getD i false = true →
        o.hash (xorBits (rowOf (senderMatrixQ o N s (idealKeys s K0 K1)
          (receiverCols o N T r K0 K1)) i) s) = o.hash (rowOf T i)) := by
  intro i hi
  have hrow := qrow_honest o N T r s K0 K1 hi hr hs hT hTcol hprg
  refine ⟨hrow, ?_, ?_⟩
  · intro h0
    rw [hrow, h0]
    simp only [Bool.false_eq_true, if_false]
  · intro h1
    rw [hrow, h1]
    simp only [if_true]
    rw [xorBits_xorBits_cancel (rowOf T i) s (by simp [rowOf, hT, hs])]

/-- Witness for C3 at `N = 128`, row 0. -/
theorem iknp_q_row_correlation_witness :
    rowOf (senderMatrixQ oracles0 128 (List.replicate 128 false)
        (idealKeys (List.replicate 128 false) (List.replicate 128 0)
          (List.replicate 128 0))
        (receiverCols oracles0 128
          (List.replicate 128 (List.replicate 128 false))
          (List.replicate 128 true) (List.replicate 128 0)
          (List.replicate 128 0))) 0 =
      (if (List.replicate 128 true).getD 0 false
       then xorBits (rowOf (List.replicate 128 (List.replicate 128 false)) 0)
         (List.replicate 128 false)
       else rowOf (List.replicate 128 (List.replicate 128 false)) 0) ∧
    ((List.replicate 128 true).getD 0 false = false →
      oracles0.hash (rowOf (senderMatrixQ oracles0 128
        (List.replicate 128 false)
        (idealKeys (List.replicate 128 false) (List.replicate 128 0)
          (List.replicate 128 0))
        (receiverCols oracles0 128
          (List.replicate 128 (List.replicate 128 false))
          (List.replicate 128 true) (List.replicate 128 0)
          (List.replicate 128 0))) 0) =
      oracles0.hash (rowOf (List.replicate 128 (List.replicate 128 false)) 0)) ∧
    ((List.replicate 128 true).getD 0 false = true →
      oracles0.hash (xorBits (rowOf (senderMatrixQ oracles0 128
        (List.replicate 128 false)
        (idealKeys (List.replicate 128 false) (List.replicate 128 0)
          (List.replicate 128 0))
        (receiverCols oracles0 128
          (List.replicate 128 (List.replicate 128 false))
          (List.replicate 128 true) (List.replicate 128 0)
          (List.replicate 128 0))) 0) (List.replicate 128 false)) =
      oracles0.hash (rowOf (List.replicate 128 (List.replicate 128 false)) 0)) :=
  iknp_q_row_correlation oracles0 128
    (List.replicate 128 (List.replicate 128 false))
    (List.replicate 128 true) (List.replicate 128 false)
    (List.replicate 128 0) (List.replicate 128 0)
    (by simp) (by simp) (by simp)
    (fun j hj => by rw [getD_replicate _ _ _ _ hj]; simp)
    (fun k n => by simp [oracles0]) 0 (by decide)

/-- C7: in an honest run the messages appear on the wire in a fixed
deterministic order: the base-OT sub-transcript first, then the 128 column
pairs `(C0_j, C1_j)` in column index order, then, in the standard variant,
the `outer_C0` block vector of `N` blocks followed by the `outer_C1` block
vector of `N` blocks; in the one-sided variant, `N` individual blocks in
row index order.  The sender-side and receiver-side event lists agree. -/
theorem iknp_wire_order (o : Oracles) (pp : PP)
    (vec_m0 vec_m1 vec_m : List Block) (r : List Bool) (N : Nat)
    (s : List Bool) (T : List (List Bool)) (K0 K1 : List Block)
    (hN : N % 128 = 0) :
    (∃ c0 c1,
      (Send o pp vec_m0 vec_m1 N s (idealKeys s K0 K1)
        (receiverCols o N T r K0 K1)).2 = some (c0, c1) ∧
      c0.length = N ∧ c1.length = N ∧
      (Send o pp vec_m0 vec_m1 N s (idealKeys s K0 K1)
        (receiverCols o N T r K0 K1)).1 =
        WireMsg.baseOT pp.baseOT ::
          ((List.range 128).map fun j =>
            WireMsg.colPair (receiverCols o N T r K0 K1 j).1
              (receiverCols o N T r K0 K1 j).2) ++
          [WireMsg.blockVec c0, WireMsg.blockVec c1] ∧
      (Receive o pp r N T K0 K1 c0 c1).1 =
        (Send o pp vec_m0 vec_m1 N s (idealKeys s K0 K1)
          (receiverCols o N T r K0 K1)).1) ∧
    (∃ c,
      (OnesidedSend o pp vec_m N s (idealKeys s K0 K1)
        (receiverCols o N T r K0 K1)).2 = some c ∧
      c.length = N ∧
      (OnesidedSend o pp vec_m N s (idealKeys s K0 K1)
        (receiverCols o N T r K0 K1)).1 =
        WireMsg.baseOT pp.baseOT ::
          ((List.range 128).map fun j =>
            WireMsg.colPair (receiverCols o N T r K0 K1 j).1
              (receiverCols o N T r K0 K1 j).2) ++
          c.map WireMsg.oneBlock ∧
      (OnesidedReceive o pp r N T K0 K1 c).1 =
        (OnesidedSend o pp vec_m N s (idealKeys s K0 K1)
          (receiverCols o N T r K0 K1)).1) := by
  have hcheck : CheckParameters N BASE_LEN = true :=
    (checkParameters_true_iff N BASE_LEN).mpr ⟨hN, by decide⟩
  have hcheck' : CheckParameters N 128 = true := hcheck
  constructor
  · refine ⟨(List.range N).map fun i =>
      vec_m0.getD i 0 ^^^ o.hash (rowOf (senderMatrixQ o N s
        (idealKeys s K0 K1) (receiverCols o N T r K0 K1)) i),
      (List.range N).map fun i =>
      vec_m1.getD i 0 ^^^ o.hash (xorBits (rowOf (senderMatrixQ o N s
        (idealKeys s K0 K1) (receiverCols o N T r K0 K1)) i) s),
      ?_, by simp, by simp, ?_, ?_⟩
    · simp only [Send, hcheck, if_true]
    · simp only [Send, BASE_LEN, hcheck', if_true]
    · simp only [Send, Receive, BASE_LEN, hcheck', if_true]
  · refine ⟨(List.range N).map fun i =>
      vec_m.getD i 0 ^^^ o.hash (xorBits (rowOf (senderMatrixQ o N s
        (idealKeys s K0 K1) (receiverCols o N T r K0 K1)) i) s),
      ?_, by simp, ?_, ?_⟩
    · simp only [OnesidedSend, hcheck, if_true]
    · simp only [OnesidedSend, BASE_LEN, hcheck', if_true]
    · have hmap : ((List.range N).map fun i => WireMsg.oneBlock
          (((List.range N).map fun i =>
            vec_m.getD i 0 ^^^ o.hash (xorBits (rowOf (senderMatrixQ o N s
              (idealKeys s K0 K1) (receiverCols o N T r K0 K1)) i) s)).getD
            i 0)) =
          ((List.range N).map fun i =>
            vec_m.getD i 0 ^^^ o.hash (xorBits (rowOf (senderMatrixQ o N s
              (idealKeys s K0 K1) (receiverCols o N T r K0 K1)) i) s)).map
            WireMsg.oneBlock := by
        rw [map_eq_range_map WireMsg.oneBlock 0 ((List.range N).map fun i =>
          vec_m.getD i 0 ^^^ o.hash (xorBits (rowOf (senderMatrixQ o N s
            (idealKeys s K0 K1) (receiverCols o N T r K0 K1)) i) s))]
        simp only [List.length_map, List.length_range]
      simp only [OnesidedSend, OnesidedReceive, BASE_LEN, hcheck', if_true,
        hmap]

/-- Witness for C7 at `N = 128` with concrete inputs. -/
theorem iknp_wire_order_witness :
    (∃ c0 c1,
      (Send oracles0 pp0 (List.replicate 128 0) (List.replicate 128 1) 128
        (List.replicate 128 false)
        (idealKeys (List.replicate 128 false) (List.replicate 128 0)
          (List.replicate 128 0))
        (receiverCols oracles0 128
          (List.replicate 128 (List.replicate 128 false))
          (List.replicate 128 false) (List.replicate 128 0)
          (List.replicate 128 0))).2 = some (c0, c1) ∧
      c0.length = 128 ∧ c1.length = 128 ∧
      (Send oracles0 pp0 (List.replicate 128 0) (List.replicate 128 1) 128
        (List.replicate 128 false)
        (idealKeys (List.replicate 128 false) (List.replicate 128 0)
          (List.replicate 128 0))
        (receiverCols oracles0 128
          (List.replicate 128 (List.replicate 128 false))
          (List.replicate 128 false) (List.replicate 128 0)
          (List.replicate 128 0))).1 =
        WireMsg.baseOT pp0.baseOT ::
          ((List.range 128).map fun j =>
            WireMsg.colPair
              (receiverCols oracles0 128
                (List.replicate 128 (List.replicate 128 false))
                (List.replicate 128 false) (List.replicate 128 0)
                (List.replicate 128 0) j).1
              (receiverCols oracles0 128
                (List.replicate 128 (List.replicate 128 false))
                (List.replicate 128 false) (List.replicate 128 0)
                (List.replicate 128 0) j).2) ++
          [WireMsg.blockVec c0, WireMsg.blockVec c1] ∧
      (Receive oracles0 pp0 (List.replicate 128 false) 128
        (List.replicate 128 (List.replicate 128 false))
        (List.replicate 128 0) (List.replicate 128 0) c0 c1).1 =
        (Send oracles0 pp0 (List.replicate 128 0) (List.replicate 128 1) 128
          (List.replicate 128 false)
          (idealKeys (List.replicate 128 false) (List.replicate 128 0)
            (List.replicate 128 0))
          (receiverCols oracles0 128
            (List.replicate 128 (List.replicate 128 false))
            (List.replicate 128 false) (List.replicate 128 0)
            (List.replicate 128 0))).1) ∧
    (∃ c,
      (OnesidedSend oracles0 pp0 (List.replicate 128 0) 128
        (List.replicate 128 false)
        (idealKeys (List.replicate 128 false) (List.replicate 128 0)
          (List.replicate 128 0))
        (receiverCols oracles0 128
          (List.replicate 128 (List.replicate 128 false))
          (List.replicate 128 false) (List.replicate 128 0)
          (List.replicate 128 0))).2 = some c ∧
      c.length = 128 ∧
      (OnesidedSend oracles0 pp0 (List.replicate 128 0) 128
        (List.replicate 128 false)
        (idealKeys (List.replicate 128 false) (List.replicate 128 0)
          (List.replicate 128 0))
        (receiverCols oracles0 128
          (List.replicate 128 (List.replicate 128 false))
          (List.replicate 128 false) (List.replicate 128 0)
          (List.replicate 128 0))).1 =
        WireMsg.baseOT pp0.baseOT ::
          ((List.range 128).map fun j =>
            WireMsg.colPair
              (receiverCols oracles0 128
                (List.replicate 128 (List.replicate 128 false))
                (List.replicate 128 false) (List.replicate 128 0)
                (List.replicate 128 0) j).1
              (receiverCols oracles0 128
                (List.replicate 128 (List.replicate 128 false))
                (List.replicate 128 false) (List.replicate 128 0)
                (List.replicate 128 0) j).2) ++
          c.map WireMsg.oneBlock ∧
      (OnesidedReceive oracles0 pp0 (List.replicate 128 false) 128
        (List.replicate 128 (List.replicate 128 false))
        (List.replicate 128 0) (List.replicate 128 0) c).1 =
        (OnesidedSend oracles0 pp0 (List.replicate 128 0) 128
          (List.replicate 128 false)
          (idealKeys (List.replicate 128 false) (List.replicate 128 0)
            (List.replicate 128 0))
          (receiverCols oracles0 128
            (List.replicate 128 (List.replicate 128 false))
            (List.replicate 128 false) (List.replicate 128 0)
            (List.replicate 128 0))).1) :=
  iknp_wire_order oracles0 pp0 (List.replicate 128 0)
    (List.replicate 128 1) (List.replicate 128 0)
    (List.replicate 128 false) 128 (List.replicate 128 false)
    (List.replicate 128 (List.replicate 128 false))
    (List.replicate 128 0) (List.replicate 128 0) (by decide)

end IKNPOTE
